import Mathlib

/-!
Verification of the `pure_wav` WAVE metadata extractor.

The Rust source (`src/lib.rs`) is shallowly embedded below:

* byte buffers are `List Nat` (each entry one byte);
* the little-endian `U16`/`U32` fields are decoded by `u16le`/`u32le`;
* `u32` machine arithmetic is modelled wrapping modulo `2^32`
  (`wadd`/`wsub`), matching the release-build semantics of the `+`/`-`
  operators used in the source;
* Rust panics (the `try_from(..).unwrap()` slice conversions and the
  `unreachable!()` in `input`) are modelled by `Option`: `none` is a panic;
* the request/response protocol is driven by `run`, a fuel-indexed driver
  that answers every read request of `output` from a byte source
  `f : Nat → Nat` and feeds the answer to `input`.
-/

deriving instance DecidableEq for Except

namespace PureWav

/-- `2^32`, the modulus of `u32` arithmetic. -/
def W32 : Nat := 4294967296

/-- Wrapping `u32` addition (release-mode `+` on `u32`). -/
def wadd (a b : Nat) : Nat := (a + b) % W32

/-- Wrapping `u32` subtraction (release-mode `-` on `u32`), for `b ≤ W32`. -/
def wsub (a b : Nat) : Nat := (a + (W32 - b)) % W32

/-- Little-endian decoding of two bytes (zerocopy `U16::get`). -/
def u16le (b : List Nat) : Nat := b.getD 0 0 + 256 * b.getD 1 0

/-- Little-endian decoding of four bytes (zerocopy `U32::get`). -/
def u32le (b : List Nat) : Nat :=
  b.getD 0 0 + 256 * (b.getD 1 0 + 256 * (b.getD 2 0 + 256 * b.getD 3 0))

/-- Little-endian encoding of a `u32` value as four bytes. -/
def u32bytes (n : Nat) : List Nat :=
  [n % 256, n / 256 % 256, n / 65536 % 256, n / 16777216 % 256]

/-- The bytes of `b"RIFF"`. -/
def riffTag : List Nat := [82, 73, 70, 70]

/-- The bytes of `b"WAVE"`. -/
def waveTag : List Nat := [87, 65, 86, 69]

/-- The bytes of `b"fmt "`. -/
def fmtTag : List Nat := [102, 109, 116, 32]

/-- The bytes of `b"data"`. -/
def dataTag : List Nat := [100, 97, 116, 97]

/-- `Header`: 4-byte chunk id plus little-endian `u32` chunk size. -/
structure Header where
  chunk_id : List Nat
  chunk_size : Nat
deriving DecidableEq

/-- Reinterpretation of (at least) 8 bytes as a `Header`
(`transmute_ref` into `Header`). -/
def decodeHeader (bs : List Nat) : Header :=
  { chunk_id := bs.take 4, chunk_size := u32le (bs.drop 4) }

/-- The `FmtData` record of the source, field for field. -/
structure FmtData where
  format_tag : Nat
  n_channels : Nat
  n_samples_per_sec : Nat
  n_avg_bytes_per_sec : Nat
  n_block_align : Nat
  w_bits_per_sample : Nat
  cb_size : Nat
  w_valid_bits_per_sample : Nat
  dw_channel_mask : List Nat
  sub_format : List Nat
deriving DecidableEq

/-- `size_of::<FmtData>()`: the fields are packed little-endian records of
widths 2+2+4+4+2+2+2+2+4+16 = 40 bytes (zerocopy `U16`/`U32` have
alignment 1, so `repr(C)` inserts no padding). -/
def fmtDataSize : Nat := 40

/-- Reinterpretation of 40 bytes as `FmtData` (`transmute_ref` into
`FmtData`), laid out at the byte offsets of the `repr(C)` struct. -/
def decodeFmtData (b : List Nat) : FmtData :=
  { format_tag := u16le b
    n_channels := u16le (b.drop 2)
    n_samples_per_sec := u32le (b.drop 4)
    n_avg_bytes_per_sec := u32le (b.drop 8)
    n_block_align := u16le (b.drop 12)
    w_bits_per_sample := u16le (b.drop 14)
    cb_size := u16le (b.drop 16)
    w_valid_bits_per_sample := u16le (b.drop 18)
    dw_channel_mask := (b.drop 20).take 4
    sub_format := (b.drop 24).take 16 }

/-- `ParseTopHeaderError` of the source. -/
inductive ParseTopHeaderError
  | UnexpectedChunkId (id : List Nat)
  | UnexpectedWaveId (id : List Nat)
deriving DecidableEq

/-- `WaveFile`: carries the declared top-level chunk size. -/
structure WaveFile where
  chunk_size : Nat
deriving DecidableEq

/-- `parse_top_header`: decode 12 bytes as chunk header plus wave id and
check the `b"RIFF"` / `b"WAVE"` tags. -/
def parse_top_header (bytes : List Nat) : Except ParseTopHeaderError WaveFile :=
  let header := decodeHeader bytes
  let wave_id := (bytes.drop 8).take 4
  if header.chunk_id = riffTag then
    if wave_id = waveTag then
      .ok { chunk_size := header.chunk_size }
    else
      .error (.UnexpectedWaveId wave_id)
  else
    .error (.UnexpectedChunkId header.chunk_id)

/-- `GetChunkHeaderAddressError` of the source. -/
inductive GetChunkHeaderAddressError
  | IncompleteChunkHeader
deriving DecidableEq

/-- `ChunkInfo`: address within the data of the top chunk, plus size. -/
structure ChunkInfo where
  address : Nat
  size : Nat
deriving DecidableEq

/-- `WaveFile::get_chunk_header_address`, with the source's `u32`
arithmetic made explicit as wrapping operations. -/
def WaveFile.get_chunk_header_address (w : WaveFile)
    (previous_chunk : Option ChunkInfo) :
    Except GetChunkHeaderAddressError (Option Nat) :=
  let next_chunk_address :=
    match previous_chunk with
    | some previous => wadd (wadd previous.address 8) previous.size
    | none => 0
  let remaining_data := wsub (wsub w.chunk_size 4) next_chunk_address
  if remaining_data = 0 then
    .ok none
  else if 8 < remaining_data then
    .ok (some (wadd 12 next_chunk_address))
  else
    .error .IncompleteChunkHeader

/-- `GetMetaDataForI2sError` of the source. -/
inductive GetMetaDataForI2sError
  | UnexpectedChunkId (id : List Nat)
  | UnexpectedWaveId (id : List Nat)
  | IncompleteChunkHeader
  | MissingChunks
deriving DecidableEq

/-- `MetaDataForI2s` of the source. -/
structure MetaDataForI2s where
  fmt_data : FmtData
  data_address : Nat
  data_size : Nat
deriving DecidableEq

/-- `ReadFmtState` of the source. -/
inductive ReadFmtState
  | ScanningForChunk
  | ReadCurrentChunk (current_chunk_size : Nat)
  | ReadFmtData (d : FmtData)
deriving DecidableEq

/-- `GetMetaDataForI2sState` of the source.  `GetChunks` carries the
declared top header size, the cursor within the data region, the format
sub-state and the recorded data chunk location. -/
inductive GetMetaDataForI2sState
  | ParseTopHeader
  | GetChunks (top_header_size : Nat) (current_address_within_data : Nat)
      (fmt : ReadFmtState) (data : Option (Nat × Nat))
  | Done (r : Except GetMetaDataForI2sError MetaDataForI2s)
deriving DecidableEq

/-- `GetMetaDataForI2sOutput` of the source; a read request is an
absolute address plus a byte count. -/
inductive GetMetaDataForI2sOutput
  | Done (r : Except GetMetaDataForI2sError MetaDataForI2s)
  | Read (address : Nat) (size : Nat)
deriving DecidableEq

/-- `GetMetaDataForI2s::MAX_READ_LEN = size_of::<FmtData>()`. -/
def MAX_READ_LEN : Nat := fmtDataSize

/-- `GetMetaDataForI2s::output` (`StateMachine::output`).  The read issued
while the format body is pending uses the constant address
`size_of::<RiffHeaderWithWaveId>() + size_of::<Header>() = 20`. -/
def output : GetMetaDataForI2sState → GetMetaDataForI2sOutput
  | .ParseTopHeader => .Read 0 12
  | .GetChunks _ _ (.ReadCurrentChunk _) _ => .Read 20 fmtDataSize
  | .GetChunks _ cur _ _ => .Read (wadd 12 cur) 8
  | .Done r => .Done r

/-- `output` takes `&self`: it returns the output and leaves the state
untouched.  This pairing makes the borrow explicit. -/
def outputCall (s : GetMetaDataForI2sState) :
    GetMetaDataForI2sOutput × GetMetaDataForI2sState :=
  (output s, s)

/-- The tail of `GetMetaDataForI2s::input` in the `GetChunks` arm: after
the chunk step updated `fmt`/`data` and computed the optional advance
amount, finalize, advance the cursor, or fail (source lines 295-320). -/
def afterChunk (T cur : Nat) (fmt : ReadFmtState) (data : Option (Nat × Nat))
    (advance : Option Nat) : GetMetaDataForI2sState :=
  match fmt, data with
  | .ReadFmtData fd, some (data_chunk_address, data_size) =>
    .Done (.ok { fmt_data := fd
                 data_address := wadd (wadd 12 data_chunk_address) 8
                 data_size := data_size })
  | _, _ =>
    match advance with
    | some current_chunk_size =>
      let remaining_data := wsub (wsub T 4) cur
      if remaining_data = 0 then
        .Done (.error .MissingChunks)
      else if 8 < remaining_data then
        .GetChunks T (wadd cur (wadd 8 current_chunk_size)) fmt data
      else
        .Done (.error .IncompleteChunkHeader)
    | none => .GetChunks T cur fmt data

/-- `GetMetaDataForI2s::input` (`StateMachine::input`).  `none` models a
panic: the `unwrap` of the slice conversion when the supplied byte count
differs from the requested one, and the `unreachable!()` in `Done`. -/
def inputFn : GetMetaDataForI2sState → List Nat →
    Option GetMetaDataForI2sState
  | .ParseTopHeader, bs =>
    if bs.length = 12 then
      let header := decodeHeader bs
      let wave_id := (bs.drop 8).take 4
      some (if header.chunk_id = riffTag then
        if wave_id = waveTag then
          .GetChunks header.chunk_size 0 .ScanningForChunk none
        else
          .Done (.error (.UnexpectedWaveId wave_id))
      else
        .Done (.error (.UnexpectedChunkId header.chunk_id)))
    else none
  | .GetChunks T cur (.ReadCurrentChunk current_chunk_size) data, bs =>
    if bs.length = fmtDataSize then
      some (afterChunk T cur (.ReadFmtData (decodeFmtData bs)) data
        (some current_chunk_size))
    else none
  | .GetChunks T cur fmt data, bs =>
    if bs.length = 8 then
      let header := decodeHeader bs
      some (if header.chunk_id = fmtTag then
        afterChunk T cur (.ReadCurrentChunk header.chunk_size) data none
      else if header.chunk_id = dataTag then
        afterChunk T cur fmt (some (cur, header.chunk_size))
          (some header.chunk_size)
      else
        afterChunk T cur fmt data (some header.chunk_size))
    else none
  | .Done _, _ => none

/-- `n` bytes of the byte source `f` starting at address `a`. -/
def readBytes (f : Nat → Nat) (a n : Nat) : List Nat :=
  match n with
  | 0 => []
  | m + 1 => f a :: readBytes f (a + 1) m

/-- A finite buffer as a byte source: positions past the end read zero. -/
def fileOf (l : List Nat) (i : Nat) : Nat := l.getD i 0

/-- Drive the protocol: repeatedly call `output`, answer each read request
from the byte source with exactly the requested number of bytes, feed the
answer to `input`.  Returns `none` if the fuel runs out (or on a panic,
which the driver never triggers since it supplies the requested length). -/
def run (f : Nat → Nat) : Nat → GetMetaDataForI2sState →
    Option (Except GetMetaDataForI2sError MetaDataForI2s)
  | 0, _ => none
  | fuel + 1, s =>
    match output s with
    | .Done r => some r
    | .Read a n =>
      match inputFn s (readBytes f a n) with
      | some s2 => run f fuel s2
      | none => none

/-- The protocol, driven against the byte source `f` from state `s`,
terminates with final result `r`. -/
def Terminates (f : Nat → Nat) (s : GetMetaDataForI2sState)
    (r : Except GetMetaDataForI2sError MetaDataForI2s) : Prop :=
  ∃ n, run f n s = some r

/-- A RIFF chunk: 4-byte tag plus body; the declared size is the body
length. -/
structure Chunk where
  tag : List Nat
  body : List Nat
deriving DecidableEq

/-- Bytes occupied by a chunk in the file: 8-byte header plus body. -/
def chunkSpan (c : Chunk) : Nat := 8 + c.body.length

/-- Encoding of one chunk: tag, little-endian size, body. -/
def chunkBytes (c : Chunk) : List Nat :=
  c.tag ++ u32bytes c.body.length ++ c.body

/-- Encoding of a chunk sequence (the data region after the top header). -/
def regionBytes (cs : List Chunk) : List Nat := (cs.map chunkBytes).flatten

/-- Total size of a chunk sequence. -/
def regionSize (cs : List Chunk) : Nat := (cs.map chunkSpan).sum

/-- A full WAVE buffer: `"RIFF"`, declared size, `"WAVE"`, chunks. -/
def fileBytes (cs : List Chunk) : List Nat :=
  riffTag ++ u32bytes (4 + regionSize cs) ++ waveTag ++ regionBytes cs

/-- A WAVE buffer whose declared size additionally covers `tail` trailing
bytes after the last complete chunk. -/
def fileBytesT (cs : List Chunk) (tail : List Nat) : List Nat :=
  riffTag ++ u32bytes (4 + regionSize cs + tail.length) ++ waveTag ++
    regionBytes cs ++ tail

/-- Is this the format chunk? -/
def isFmt (c : Chunk) : Bool := decide (c.tag = fmtTag)

/-- Is this the data chunk? -/
def isData (c : Chunk) : Bool := decide (c.tag = dataTag)

/-- Offset of the (first) data chunk within the data region. -/
def dataChunkOffset : List Chunk → Nat
  | [] => 0
  | c :: cs => if isData c then 0 else chunkSpan c + dataChunkOffset cs

/-- Declared size of the (first) data chunk. -/
def dataChunkSize : List Chunk → Nat
  | [] => 0
  | c :: cs => if isData c then c.body.length else dataChunkSize cs

/-- Well-formed chunk sequence for the round-trip property: 4-byte tags,
exactly one format chunk, exactly one data chunk, and every byte of the
buffer addressable by a `u32`. -/
abbrev WF (cs : List Chunk) : Prop :=
  (∀ c ∈ cs, c.tag.length = 4) ∧
  cs.countP isFmt = 1 ∧
  cs.countP isData = 1 ∧
  12 + regionSize cs < W32

/-- The concrete 52-byte example file: a 16-byte format chunk followed by
an 8-byte data chunk. -/
def demoChunks : List Chunk :=
  [{ tag := fmtTag, body := List.replicate 16 0 },
   { tag := dataTag, body := List.replicate 8 0 }]

/-- Junk chunk sequence with a truncated tail: 4-byte tags that are
neither `"fmt "` nor `"data"`, and between 1 and 8 declared bytes left
after the last complete chunk. -/
abbrev WFJunk (cs : List Chunk) (tail : List Nat) : Prop :=
  (∀ c ∈ cs, c.tag.length = 4 ∧ c.tag ≠ fmtTag ∧ c.tag ≠ dataTag) ∧
  1 ≤ tail.length ∧ tail.length ≤ 8 ∧
  12 + regionSize cs + tail.length < W32

theorem wadd_eq (a b : Nat) (h : a + b < W32) : wadd a b = a + b :=
  Nat.mod_eq_of_lt h

theorem wsub_eq (a b : Nat) (hb : b ≤ a) (ha : a < W32) : wsub a b = a - b := by
  have hbW : b ≤ W32 := le_trans hb (le_of_lt ha)
  have h1 : a + (W32 - b) = (a - b) + W32 := by omega
  rw [wsub, h1, Nat.add_mod_right, Nat.mod_eq_of_lt (by omega)]

theorem u32le_u32bytes (n : Nat) (h : n < W32) : u32le (u32bytes n) = n := by
  simp [u32le, u32bytes, List.getD]
  unfold W32 at h
  omega

theorem readBytes_length (f : Nat → Nat) (a n : Nat) :
    (readBytes f a n).length = n := by
  induction n generalizing a with
  | zero => rfl
  | succ m ih => simp [readBytes, ih]

theorem readBytes_fileOf (l : List Nat) (a n : Nat) :
    readBytes (fileOf l) a n
      = (l.drop a).take n ++ List.replicate (n - (l.length - a)) 0 := by
  induction n generalizing a with
  | zero => simp [readBytes]
  | succ m ih =>
    rw [readBytes, ih]
    by_cases h : a < l.length
    · rw [List.drop_eq_getElem_cons h, List.take_succ_cons]
      have hg : fileOf l a = l[a] := by
        simp [fileOf, List.getD, List.getElem?_eq_getElem h]
      have hc : m + 1 - (l.length - a) = m - (l.length - (a + 1)) := by omega
      simp [hg, hc]
    · have h1 : l.drop a = [] := List.drop_eq_nil_of_le (by omega)
      have h2 : l.drop (a + 1) = [] := List.drop_eq_nil_of_le (by omega)
      have hg : fileOf l a = 0 := by
        simp [fileOf, List.getD, List.getElem?_eq_none (by omega : l.length ≤ a)]
      have hc1 : m + 1 - (l.length - a) = m + 1 := by omega
      have hc2 : m - (l.length - (a + 1)) = m := by omega
      simp [h1, h2, hg, hc1, hc2, List.replicate_succ]

theorem readBytes_fileOf_of_le (l : List Nat) (a n : Nat)
    (h : a + n ≤ l.length) :
    readBytes (fileOf l) a n = (l.drop a).take n := by
  rw [readBytes_fileOf]
  have : n - (l.length - a) = 0 := by omega
  simp [this]

theorem run_step {f : Nat → Nat} {s s2 : GetMetaDataForI2sState}
    {r : Except GetMetaDataForI2sError MetaDataForI2s} {a n : Nat}
    (h1 : output s = .Read a n)
    (h2 : inputFn s (readBytes f a n) = some s2)
    (h3 : Terminates f s2 r) : Terminates f s r := by
  obtain ⟨k, hk⟩ := h3
  exact ⟨k + 1, by simp [run, h1, h2, hk]⟩

theorem terminates_done {f : Nat → Nat} {s : GetMetaDataForI2sState}
    {r : Except GetMetaDataForI2sError MetaDataForI2s}
    (h : output s = .Done r) : Terminates f s r :=
  ⟨1, by simp [run, h]⟩

theorem run_mono {f : Nat → Nat} {s : GetMetaDataForI2sState}
    {r : Except GetMetaDataForI2sError MetaDataForI2s} {n : Nat}
    (h : run f n s = some r) : ∀ m, n ≤ m → run f m s = some r := by
  induction n generalizing s with
  | zero => simp [run] at h
  | succ k ih =>
    intro m hm
    obtain ⟨m2, rfl⟩ : ∃ m2, m = m2 + 1 := ⟨m - 1, by omega⟩
    rw [run] at h ⊢
    cases ho : output s with
    | Done r2 => simp only [ho] at h ⊢; exact h
    | Read a nn =>
      simp only [ho] at h ⊢
      cases hi : inputFn s (readBytes f a nn) with
      | none => simp [hi] at h
      | some s2 => simp only [hi] at h ⊢; exact ih h m2 (by omega)

theorem run_det {f : Nat → Nat} {s : GetMetaDataForI2sState}
    {r r2 : Except GetMetaDataForI2sError MetaDataForI2s} {n m : Nat}
    (h : run f n s = some r) (h2 : run f m s = some r2) : r = r2 := by
  have ha := run_mono h (n + m) (by omega)
  have hb := run_mono h2 (n + m) (by omega)
  rw [ha] at hb
  exact (Option.some.injEq _ _ ▸ hb)

theorem regionBytes_cons (c : Chunk) (cs : List Chunk) :
    regionBytes (c :: cs) = chunkBytes c ++ regionBytes cs := by
  simp [regionBytes]

theorem regionBytes_append (xs ys : List Chunk) :
    regionBytes (xs ++ ys) = regionBytes xs ++ regionBytes ys := by
  simp [regionBytes]

theorem regionSize_cons (c : Chunk) (cs : List Chunk) :
    regionSize (c :: cs) = chunkSpan c + regionSize cs := by
  simp [regionSize]

theorem regionSize_append (xs ys : List Chunk) :
    regionSize (xs ++ ys) = regionSize xs + regionSize ys := by
  simp [regionSize]

theorem chunkSpan_ge (c : Chunk) : 8 ≤ chunkSpan c := by
  simp [chunkSpan]

theorem chunkBytes_length {c : Chunk} (h : c.tag.length = 4) :
    (chunkBytes c).length = chunkSpan c := by
  simp [chunkBytes, chunkSpan, u32bytes, h]
  omega

theorem regionBytes_length {cs : List Chunk}
    (h : ∀ c ∈ cs, c.tag.length = 4) :
    (regionBytes cs).length = regionSize cs := by
  induction cs with
  | nil => rfl
  | cons c rest ih =>
    rw [regionBytes_cons, regionSize_cons, List.length_append,
      chunkBytes_length (h c (by simp)), ih (fun x hx => h x (by simp [hx]))]

theorem regionSize_ne_nil {cs : List Chunk} (h : cs ≠ []) :
    8 ≤ regionSize cs := by
  cases cs with
  | nil => exact absurd rfl h
  | cons c rest =>
    rw [regionSize_cons]
    have := chunkSpan_ge c
    omega

theorem countP_pos_ne_nil {p : Chunk → Bool} {cs : List Chunk}
    (h : cs.countP p = 1) : cs ≠ [] := by
  intro he
  rw [he] at h
  simp [List.countP_nil] at h

theorem u32le_append {x : List Nat} (y : List Nat) (h : x.length = 4) :
    u32le (x ++ y) = u32le x := by
  unfold u32le
  rw [List.getD_append _ _ _ _ (by omega), List.getD_append _ _ _ _ (by omega),
    List.getD_append _ _ _ _ (by omega), List.getD_append _ _ _ _ (by omega)]

theorem take_eight {t s4 : List Nat} (rest : List Nat) (ht : t.length = 4)
    (hs : s4.length = 4) : (t ++ (s4 ++ rest)).take 8 = t ++ s4 := by
  have h8 : (8 : Nat) = t.length + 4 := by omega
  rw [h8, List.take_append, List.take_left' hs]

theorem decodeHeader_chunk {t : List Nat} (m : Nat) (y : List Nat)
    (ht : t.length = 4) (hm : m < W32) :
    decodeHeader (t ++ (u32bytes m ++ y)) = ⟨t, m⟩ := by
  unfold decodeHeader
  have h4 : (4 : Nat) = t.length := ht.symm
  have hid : (t ++ (u32bytes m ++ y)).take 4 = t := List.take_left' ht
  have hdrop : (t ++ (u32bytes m ++ y)).drop 4 = u32bytes m ++ y := List.drop_left' ht
  rw [hid, hdrop, u32le_append y (by simp [u32bytes]), u32le_u32bytes m hm]

theorem region_read (pre : List Nat) (hpre : pre.length = 12)
    (done : List Chunk) (hdone : ∀ x ∈ done, x.tag.length = 4)
    (c : Chunk) (hct : c.tag.length = 4) (suffix : List Nat)
    (hW : 12 + regionSize done < W32) :
    readBytes (fileOf (pre ++ (regionBytes done ++ (chunkBytes c ++ suffix))))
        (wadd 12 (regionSize done)) 8
      = c.tag ++ u32bytes c.body.length := by
  have hwadd : wadd 12 (regionSize done) = 12 + regionSize done := wadd_eq _ _ hW
  have hlen : (pre ++ (regionBytes done ++ (chunkBytes c ++ suffix))).length
      = 12 + (regionSize done + (chunkSpan c + suffix.length)) := by
    simp [hpre, regionBytes_length hdone, chunkBytes_length hct]
  have hbound : 12 + regionSize done + 8
      ≤ (pre ++ (regionBytes done ++ (chunkBytes c ++ suffix))).length := by
    rw [hlen]
    have := chunkSpan_ge c
    omega
  rw [hwadd, readBytes_fileOf_of_le _ _ _ (by omega)]
  have hd : (pre ++ (regionBytes done ++ (chunkBytes c ++ suffix))).drop
      (12 + regionSize done) = chunkBytes c ++ suffix := by
    have h1 : (12 : Nat) + regionSize done = pre.length + regionSize done := by
      rw [hpre]
    rw [h1, List.drop_append, List.drop_left' (regionBytes_length hdone)]
  rw [hd]
  show (chunkBytes c ++ suffix).take 8 = c.tag ++ u32bytes c.body.length
  have hcb : chunkBytes c ++ suffix
      = c.tag ++ (u32bytes c.body.length ++ (c.body ++ suffix)) := by
    simp [chunkBytes]
  rw [hcb, take_eight _ hct (by simp [u32bytes])]

theorem top_input {T0 : Nat} (hT : T0 < W32) (reg : List Nat) :
    inputFn .ParseTopHeader
        (readBytes (fileOf (riffTag ++ (u32bytes T0 ++ (waveTag ++ reg)))) 0 12)
      = some (.GetChunks T0 0 .ScanningForChunk none) := by
  have hb : readBytes (fileOf (riffTag ++ (u32bytes T0 ++ (waveTag ++ reg)))) 0 12
      = riffTag ++ (u32bytes T0 ++ waveTag) := by
    rw [readBytes_fileOf_of_le _ _ _ (by simp [riffTag, waveTag, u32bytes])]
    rw [List.drop_zero]
    have h12 : (12 : Nat) = riffTag.length + 8 := by simp [riffTag]
    rw [h12, List.take_append, take_eight _ (by simp [u32bytes]) (by simp [waveTag])]
  rw [hb]
  have hlen : (riffTag ++ (u32bytes T0 ++ waveTag)).length = 12 := by
    simp [riffTag, waveTag, u32bytes]
  have hdec : decodeHeader (riffTag ++ (u32bytes T0 ++ waveTag)) = ⟨riffTag, T0⟩ :=
    decodeHeader_chunk T0 waveTag (by simp [riffTag]) hT
  have hwid : ((riffTag ++ (u32bytes T0 ++ waveTag)).drop 8).take 4 = waveTag := by
    have h8 : (8 : Nat) = riffTag.length + 4 := by simp [riffTag]
    rw [h8, List.drop_append, List.drop_left' (by simp [u32bytes]),
      List.take_of_length_le (by simp [waveTag])]
  simp [inputFn, hlen, hdec, hwid]

theorem decodeHeader_chunk2 {t : List Nat} (m : Nat) (ht : t.length = 4)
    (hm : m < W32) : decodeHeader (t ++ u32bytes m) = ⟨t, m⟩ := by
  have := decodeHeader_chunk m [] ht hm
  simpa using this

theorem isFmt_true {c : Chunk} (h : c.tag = fmtTag) : isFmt c = true := by
  simp [isFmt, h]

theorem isData_of_fmt {c : Chunk} (h : c.tag = fmtTag) : isData c = false := by
  simp [isData, h]
  decide

theorem dataOff_prefix {done : List Chunk} (rest : List Chunk) {c : Chunk}
    (h0 : done.countP isData = 0) (hc : isData c = true) :
    dataChunkOffset (done ++ c :: rest) = regionSize done := by
  induction done with
  | nil => simp [dataChunkOffset, hc, regionSize]
  | cons d ds ih =>
    rw [List.countP_cons] at h0
    have hd : isData d = false := by
      cases hxd : isData d with
      | false => rfl
      | true => rw [hxd] at h0; simp at h0
    rw [hd] at h0
    have hds : ds.countP isData = 0 := by simpa using h0
    rw [List.cons_append, dataChunkOffset, regionSize_cons]
    simp [hd, ih hds]

theorem dataSize_prefix {done : List Chunk} (rest : List Chunk) {c : Chunk}
    (h0 : done.countP isData = 0) (hc : isData c = true) :
    dataChunkSize (done ++ c :: rest) = c.body.length := by
  induction done with
  | nil => simp [dataChunkSize, hc]
  | cons d ds ih =>
    rw [List.countP_cons] at h0
    have hd : isData d = false := by
      cases hxd : isData d with
      | false => rfl
      | true => rw [hxd] at h0; simp at h0
    rw [hd] at h0
    have hds : ds.countP isData = 0 := by simpa using h0
    rw [List.cons_append, dataChunkSize]
    simp [hd, ih hds]

theorem dataOff_bound {cs : List Chunk} (h : cs.countP isData = 1) :
    dataChunkOffset cs + 8 + dataChunkSize cs ≤ regionSize cs := by
  induction cs with
  | nil => simp [List.countP_nil] at h
  | cons c rest ih =>
    rw [List.countP_cons] at h
    by_cases hc : isData c = true
    · rw [dataChunkOffset, dataChunkSize, regionSize_cons]
      simp only [hc, if_true]
      simp [chunkSpan]
    · have hc2 : isData c = false := by simpa using hc
      rw [hc2] at h
      simp only [Bool.false_eq_true, if_false] at h
      have := ih (by omega)
      rw [dataChunkOffset, dataChunkSize, regionSize_cons]
      simp only [hc2, Bool.false_eq_true, if_false]
      omega

theorem afterChunk_go_scanning (T cur sz : Nat) (data : Option (Nat × Nat)) :
    afterChunk T cur .ScanningForChunk data (some sz)
      = (if wsub (wsub T 4) cur = 0 then .Done (.error .MissingChunks)
         else if 8 < wsub (wsub T 4) cur then
           .GetChunks T (wadd cur (wadd 8 sz)) .ScanningForChunk data
         else .Done (.error .IncompleteChunkHeader)) := by
  cases data <;> rfl

theorem afterChunk_go_fmtdata (T cur sz : Nat) (fd : FmtData) :
    afterChunk T cur (.ReadFmtData fd) none (some sz)
      = (if wsub (wsub T 4) cur = 0 then .Done (.error .MissingChunks)
         else if 8 < wsub (wsub T 4) cur then
           .GetChunks T (wadd cur (wadd 8 sz)) (.ReadFmtData fd) none
         else .Done (.error .IncompleteChunkHeader)) := rfl

theorem afterChunk_final (T cur sz : Nat) (fd : FmtData) (a b : Nat) :
    afterChunk T cur (.ReadFmtData fd) (some (a, b)) (some sz)
      = .Done (.ok ⟨fd, wadd (wadd 12 a) 8, b⟩) := rfl

theorem isFmt_false {c : Chunk} (h : ¬ c.tag = fmtTag) : isFmt c = false := by
  simp [isFmt, h]

theorem isData_false {c : Chunk} (h : ¬ c.tag = dataTag) : isData c = false := by
  simp [isData, h]

theorem isData_true {c : Chunk} (h : c.tag = dataTag) : isData c = true := by
  simp [isData, h]

theorem isFmt_of_data {c : Chunk} (h : c.tag = dataTag) : isFmt c = false := by
  simp [isFmt, h]
  decide

theorem afterChunk_none_rcc (T cur sz : Nat) (data : Option (Nat × Nat)) :
    afterChunk T cur (.ReadCurrentChunk sz) data none
      = .GetChunks T cur (.ReadCurrentChunk sz) data := by
  cases data <;> rfl

theorem inputFn_header {T cur : Nat} (fmt : ReadFmtState)
    (hfmt : fmt = .ScanningForChunk ∨ ∃ fd, fmt = .ReadFmtData fd)
    {data : Option (Nat × Nat)} {tg : List Nat} {m : Nat}
    (hlen : (tg ++ u32bytes m).length = 8) (hm : m < W32) :
    inputFn (.GetChunks T cur fmt data) (tg ++ u32bytes m)
      = some (if tg = fmtTag then
          afterChunk T cur (.ReadCurrentChunk m) data none
        else if tg = dataTag then
          afterChunk T cur fmt (some (cur, m)) (some m)
        else afterChunk T cur fmt data (some m)) := by
  have htg : tg.length = 4 := by
    simp [u32bytes] at hlen
    omega
  have hdec := decodeHeader_chunk2 m htg hm
  rcases hfmt with rfl | ⟨fd, rfl⟩ <;>
    simp [inputFn, hlen, hdec]

theorem scan_finishes (cs : List Chunk) (hwf : WF cs) :
    ∀ todo done fmt data,
      cs = done ++ todo →
      ((fmt = ReadFmtState.ScanningForChunk ∧ todo.countP isFmt = 1) ∨
        ((∃ fd, fmt = ReadFmtState.ReadFmtData fd) ∧ todo.countP isFmt = 0)) →
      ((data = none ∧ todo.countP isData = 1) ∨
        (data = some (dataChunkOffset cs, dataChunkSize cs) ∧
          todo.countP isData = 0)) →
      (todo.countP isFmt = 1 ∨ todo.countP isData = 1) →
      ∃ fd2, Terminates (fileOf (fileBytes cs))
        (.GetChunks (4 + regionSize cs) (regionSize done) fmt data)
        (.ok ⟨fd2, 12 + dataChunkOffset cs + 8, dataChunkSize cs⟩) := by
  intro todo
  induction todo with
  | nil =>
    intro done fmt data hcs hfmt hdata hpos
    exfalso
    rcases hpos with h | h <;> simp [List.countP_nil] at h
  | cons c rest ih =>
    intro done fmt data hcs hfmt hdata hpos
    obtain ⟨htags, hcountF, hcountD, hW⟩ := hwf
    have hct : c.tag.length = 4 := htags c (by rw [hcs]; simp)
    have hdonetags : ∀ x ∈ done, x.tag.length = 4 := fun x hx =>
      htags x (by rw [hcs]; simp [hx])
    have hsplit : regionSize cs
        = regionSize done + (chunkSpan c + regionSize rest) := by
      rw [hcs, regionSize_append, regionSize_cons]
    have hcsp : chunkSpan c = 8 + c.body.length := rfl
    have hspan8 : 8 ≤ chunkSpan c := chunkSpan_ge c
    have hbody : c.body.length < W32 := by omega
    have hfile : fileBytes cs
        = (riffTag ++ u32bytes (4 + regionSize cs) ++ waveTag)
          ++ (regionBytes done ++ (chunkBytes c ++ regionBytes rest)) := by
      rw [fileBytes, hcs, regionBytes_append, regionBytes_cons]
    have hread : readBytes (fileOf (fileBytes cs)) (wadd 12 (regionSize done)) 8
        = c.tag ++ u32bytes c.body.length := by
      rw [hfile]
      exact region_read _ (by simp [riffTag, waveTag, u32bytes]) done hdonetags
        c hct _ (by omega)
    have hlen8 : (c.tag ++ u32bytes c.body.length).length = 8 := by
      simp [hct, u32bytes]
    have hrem : wsub (wsub (4 + regionSize cs) 4) (regionSize done)
        = chunkSpan c + regionSize rest := by
      have h1 : wsub (4 + regionSize cs) 4 = regionSize cs := by
        rw [wsub_eq _ _ (by omega) (by omega)]
        omega
      have h2 : wsub (regionSize cs) (regionSize done)
          = chunkSpan c + regionSize rest := by
        rw [wsub_eq _ _ (by omega) (by omega)]
        omega
      rw [h1, h2]
    have hrs1 : regionSize (done ++ [c]) = regionSize done + chunkSpan c := by
      rw [regionSize_append, regionSize_cons]
      simp [regionSize]
    have hcur : wadd (regionSize done) (wadd 8 c.body.length)
        = regionSize (done ++ [c]) := by
      rw [wadd_eq 8 _ (by omega), wadd_eq _ _ (by omega), hrs1]
      omega
    have hcs2 : cs = (done ++ [c]) ++ rest := by rw [hcs]; simp
    by_cases hf : c.tag = fmtTag
    · -- the format chunk: two protocol steps (header, then body)
      have hfc : isFmt c = true := isFmt_true hf
      have hdc : isData c = false := isData_of_fmt hf
      rcases hfmt with ⟨rfl, hcf⟩ | ⟨⟨fd, rfl⟩, hcf⟩
      on_goal 2 =>
        exfalso
        rw [List.countP_cons, hfc] at hcf
        simp at hcf
      have hrestF : rest.countP isFmt = 0 := by
        rw [List.countP_cons, hfc] at hcf
        simpa using hcf
      have h40 : (readBytes (fileOf (fileBytes cs)) 20 fmtDataSize).length
          = fmtDataSize := readBytes_length _ _ _
      rcases hdata with ⟨rfl, hcd⟩ | ⟨rfl, hcd⟩
      · -- data chunk still ahead: capture the body, advance, recurse
        have hrestD : rest.countP isData = 1 := by
          rw [List.countP_cons, hdc] at hcd
          simpa using hcd
        have hrs8 : 8 ≤ regionSize rest :=
          regionSize_ne_nil (countP_pos_ne_nil hrestD)
        have hin1 : inputFn
            (.GetChunks (4 + regionSize cs) (regionSize done)
              .ScanningForChunk none)
            (readBytes (fileOf (fileBytes cs)) (wadd 12 (regionSize done)) 8)
            = some (.GetChunks (4 + regionSize cs) (regionSize done)
                (.ReadCurrentChunk c.body.length) none) := by
          rw [hread, inputFn_header .ScanningForChunk (Or.inl rfl) hlen8 hbody,
            if_pos hf, afterChunk_none_rcc]
        have hin2 : inputFn
            (.GetChunks (4 + regionSize cs) (regionSize done)
              (.ReadCurrentChunk c.body.length) none)
            (readBytes (fileOf (fileBytes cs)) 20 fmtDataSize)
            = some (.GetChunks (4 + regionSize cs) (regionSize (done ++ [c]))
                (.ReadFmtData (decodeFmtData
                  (readBytes (fileOf (fileBytes cs)) 20 fmtDataSize))) none) := by
          simp only [inputFn, h40, if_true, eq_self_iff_true]
          rw [afterChunk_go_fmtdata, hrem, if_neg (by omega), if_pos (by omega),
            hcur]
        obtain ⟨fd2, hT⟩ := ih (done ++ [c])
          (.ReadFmtData (decodeFmtData
            (readBytes (fileOf (fileBytes cs)) 20 fmtDataSize))) none hcs2
          (Or.inr ⟨⟨_, rfl⟩, hrestF⟩) (Or.inl ⟨rfl, hrestD⟩) (Or.inr hrestD)
        have hT1 : Terminates (fileOf (fileBytes cs))
            (.GetChunks (4 + regionSize cs) (regionSize done)
              (.ReadCurrentChunk c.body.length) none)
            (.ok ⟨fd2, 12 + dataChunkOffset cs + 8, dataChunkSize cs⟩) :=
          run_step rfl hin2 hT
        exact ⟨fd2, run_step rfl hin1 hT1⟩
      · -- data chunk already recorded: the body read finalizes
        have hoffb : dataChunkOffset cs + 8 + dataChunkSize cs ≤ regionSize cs :=
          dataOff_bound hcountD
        have hin1 : inputFn
            (.GetChunks (4 + regionSize cs) (regionSize done) .ScanningForChunk
              (some (dataChunkOffset cs, dataChunkSize cs)))
            (readBytes (fileOf (fileBytes cs)) (wadd 12 (regionSize done)) 8)
            = some (.GetChunks (4 + regionSize cs) (regionSize done)
                (.ReadCurrentChunk c.body.length)
                (some (dataChunkOffset cs, dataChunkSize cs))) := by
          rw [hread, inputFn_header .ScanningForChunk (Or.inl rfl) hlen8 hbody,
            if_pos hf, afterChunk_none_rcc]
        have hin2 : inputFn
            (.GetChunks (4 + regionSize cs) (regionSize done)
              (.ReadCurrentChunk c.body.length)
              (some (dataChunkOffset cs, dataChunkSize cs)))
            (readBytes (fileOf (fileBytes cs)) 20 fmtDataSize)
            = some (.Done (.ok ⟨decodeFmtData
                (readBytes (fileOf (fileBytes cs)) 20 fmtDataSize),
                12 + dataChunkOffset cs + 8, dataChunkSize cs⟩)) := by
          simp only [inputFn, h40, if_true, eq_self_iff_true]
          rw [afterChunk_final, wadd_eq 12 _ (by omega), wadd_eq _ _ (by omega)]
        have hT1 : Terminates (fileOf (fileBytes cs))
            (.GetChunks (4 + regionSize cs) (regionSize done)
              (.ReadCurrentChunk c.body.length)
              (some (dataChunkOffset cs, dataChunkSize cs)))
            (.ok ⟨decodeFmtData
                (readBytes (fileOf (fileBytes cs)) 20 fmtDataSize),
                12 + dataChunkOffset cs + 8, dataChunkSize cs⟩) :=
          run_step rfl hin2 (terminates_done rfl)
        exact ⟨_, run_step rfl hin1 hT1⟩
    · by_cases hd : c.tag = dataTag
      · -- the data chunk
        have hdc : isData c = true := isData_true hd
        have hfcF : isFmt c = false := isFmt_false hf
        rcases hdata with ⟨rfl, hcd⟩ | ⟨rfl, hcd⟩
        on_goal 2 =>
          exfalso
          rw [List.countP_cons, hdc] at hcd
          simp at hcd
        have hrestD : rest.countP isData = 0 := by
          rw [List.countP_cons, hdc] at hcd
          simpa using hcd
        have hdone0 : done.countP isData = 0 := by
          have hx := hcountD
          rw [hcs, List.countP_append, List.countP_cons, hdc] at hx
          simp at hx
          omega
        have hoff : dataChunkOffset cs = regionSize done := by
          rw [hcs]
          exact dataOff_prefix rest hdone0 hdc
        have hsz : dataChunkSize cs = c.body.length := by
          rw [hcs]
          exact dataSize_prefix rest hdone0 hdc
        rcases hfmt with ⟨rfl, hcf⟩ | ⟨⟨fd, rfl⟩, hcf⟩
        · -- format chunk still ahead: record the data location, recurse
          have hrestF1 : rest.countP isFmt = 1 := by
            rw [List.countP_cons, hfcF] at hcf
            simpa using hcf
          have hrs8 : 8 ≤ regionSize rest :=
            regionSize_ne_nil (countP_pos_ne_nil hrestF1)
          have hin1 : inputFn
              (.GetChunks (4 + regionSize cs) (regionSize done)
                .ScanningForChunk none)
              (readBytes (fileOf (fileBytes cs)) (wadd 12 (regionSize done)) 8)
              = some (.GetChunks (4 + regionSize cs) (regionSize (done ++ [c]))
                  .ScanningForChunk
                  (some (dataChunkOffset cs, dataChunkSize cs))) := by
            rw [hread, inputFn_header .ScanningForChunk (Or.inl rfl) hlen8 hbody,
              if_neg hf, if_pos hd, afterChunk_go_scanning, hrem,
              if_neg (by omega), if_pos (by omega), hcur, hoff, hsz]
          obtain ⟨fd2, hT⟩ := ih (done ++ [c]) .ScanningForChunk
            (some (dataChunkOffset cs, dataChunkSize cs)) hcs2
            (Or.inl ⟨rfl, hrestF1⟩) (Or.inr ⟨rfl, hrestD⟩) (Or.inl hrestF1)
          exact ⟨fd2, run_step rfl hin1 hT⟩
        · -- format already captured: this step finalizes
          have hin1 : inputFn
              (.GetChunks (4 + regionSize cs) (regionSize done)
                (.ReadFmtData fd) none)
              (readBytes (fileOf (fileBytes cs)) (wadd 12 (regionSize done)) 8)
              = some (.Done (.ok ⟨fd, 12 + dataChunkOffset cs + 8,
                  dataChunkSize cs⟩)) := by
            rw [hread, inputFn_header (.ReadFmtData fd) (Or.inr ⟨fd, rfl⟩)
              hlen8 hbody, if_neg hf, if_pos hd, afterChunk_final,
              wadd_eq 12 _ (by omega), wadd_eq _ _ (by omega), hoff, hsz]
          exact ⟨fd, run_step rfl hin1 (terminates_done rfl)⟩
      · -- an unrelated chunk: skip it and recurse
        have hfcF : isFmt c = false := isFmt_false hf
        have hdcF : isData c = false := isData_false hd
        have hcfr : (c :: rest).countP isFmt = rest.countP isFmt := by
          rw [List.countP_cons, hfcF]
          simp
        have hcdr : (c :: rest).countP isData = rest.countP isData := by
          rw [List.countP_cons, hdcF]
          simp
        have hposr : rest.countP isFmt = 1 ∨ rest.countP isData = 1 := by
          rcases hpos with hp | hp
          · exact Or.inl (by rw [hcfr] at hp; exact hp)
          · exact Or.inr (by rw [hcdr] at hp; exact hp)
        have hrs8 : 8 ≤ regionSize rest := by
          rcases hposr with hp | hp
          · exact regionSize_ne_nil (countP_pos_ne_nil hp)
          · exact regionSize_ne_nil (countP_pos_ne_nil hp)
        rcases hfmt with ⟨rfl, hcf⟩ | ⟨⟨fd, rfl⟩, hcf⟩ <;>
          rcases hdata with ⟨rfl, hcd⟩ | ⟨rfl, hcd⟩
        · have hin1 : inputFn
              (.GetChunks (4 + regionSize cs) (regionSize done)
                .ScanningForChunk none)
              (readBytes (fileOf (fileBytes cs)) (wadd 12 (regionSize done)) 8)
              = some (.GetChunks (4 + regionSize cs) (regionSize (done ++ [c]))
                  .ScanningForChunk none) := by
            rw [hread, inputFn_header .ScanningForChunk (Or.inl rfl) hlen8 hbody,
              if_neg hf, if_neg hd, afterChunk_go_scanning, hrem,
              if_neg (by omega), if_pos (by omega), hcur]
          obtain ⟨fd2, hT⟩ := ih (done ++ [c]) .ScanningForChunk none hcs2
            (Or.inl ⟨rfl, by rw [hcfr] at hcf; exact hcf⟩)
            (Or.inl ⟨rfl, by rw [hcdr] at hcd; exact hcd⟩) hposr
          exact ⟨fd2, run_step rfl hin1 hT⟩
        · have hin1 : inputFn
              (.GetChunks (4 + regionSize cs) (regionSize done)
                .ScanningForChunk (some (dataChunkOffset cs, dataChunkSize cs)))
              (readBytes (fileOf (fileBytes cs)) (wadd 12 (regionSize done)) 8)
              = some (.GetChunks (4 + regionSize cs) (regionSize (done ++ [c]))
                  .ScanningForChunk
                  (some (dataChunkOffset cs, dataChunkSize cs))) := by
            rw [hread, inputFn_header .ScanningForChunk (Or.inl rfl) hlen8 hbody,
              if_neg hf, if_neg hd, afterChunk_go_scanning, hrem,
              if_neg (by omega), if_pos (by omega), hcur]
          obtain ⟨fd2, hT⟩ := ih (done ++ [c]) .ScanningForChunk
            (some (dataChunkOffset cs, dataChunkSize cs)) hcs2
            (Or.inl ⟨rfl, by rw [hcfr] at hcf; exact hcf⟩)
            (Or.inr ⟨rfl, by rw [hcdr] at hcd; exact hcd⟩) hposr
          exact ⟨fd2, run_step rfl hin1 hT⟩
        · have hin1 : inputFn
              (.GetChunks (4 + regionSize cs) (regionSize done)
                (.ReadFmtData fd) none)
              (readBytes (fileOf (fileBytes cs)) (wadd 12 (regionSize done)) 8)
              = some (.GetChunks (4 + regionSize cs) (regionSize (done ++ [c]))
                  (.ReadFmtData fd) none) := by
            rw [hread, inputFn_header (.ReadFmtData fd) (Or.inr ⟨fd, rfl⟩)
              hlen8 hbody, if_neg hf, if_neg hd, afterChunk_go_fmtdata, hrem,
              if_neg (by omega), if_pos (by omega), hcur]
          obtain ⟨fd2, hT⟩ := ih (done ++ [c]) (.ReadFmtData fd) none hcs2
            (Or.inr ⟨⟨fd, rfl⟩, by rw [hcfr] at hcf; exact hcf⟩)
            (Or.inl ⟨rfl, by rw [hcdr] at hcd; exact hcd⟩) hposr
          exact ⟨fd2, run_step rfl hin1 hT⟩
        · exfalso
          rcases hpos with hp | hp
          · rw [hp] at hcf
            exact absurd hcf (by norm_num)
          · rw [hp] at hcd
            exact absurd hcd (by norm_num)

/-- Claim C1: for every well-formed WAVE buffer (12-byte top header with
`"RIFF"`/`"WAVE"` and a chunk sequence containing exactly one `"fmt "` and
one `"data"` chunk, in either order and with arbitrary unrelated chunks
interleaved), driving the protocol with exactly the requested bytes
(requests past the buffer end are answered with zero bytes) terminates in
`Done(Ok)` with `data_address = 12 + data chunk offset + 8` and
`data_size` the data chunk's declared size.  The concrete 52-byte file is
the witness. -/
theorem C1_round_trip (cs : List Chunk) (h : WF cs) :
    ∃ fd, Terminates (fileOf (fileBytes cs)) .ParseTopHeader
      (.ok ⟨fd, 12 + dataChunkOffset cs + 8, dataChunkSize cs⟩) := by
  obtain ⟨htags, hcountF, hcountD, hW⟩ := h
  have hT0 : 4 + regionSize cs < W32 := by omega
  have hin0 : inputFn .ParseTopHeader (readBytes (fileOf (fileBytes cs)) 0 12)
      = some (.GetChunks (4 + regionSize cs) 0 .ScanningForChunk none) :=
    top_input hT0 (regionBytes cs)
  obtain ⟨fd2, hT⟩ := scan_finishes cs ⟨htags, hcountF, hcountD, hW⟩ cs []
    .ScanningForChunk none (by simp) (Or.inl ⟨rfl, hcountF⟩)
    (Or.inl ⟨rfl, hcountD⟩) (Or.inl hcountF)
  exact ⟨fd2, run_step rfl hin0 hT⟩

theorem inputFn_scanning_raw {T cur : Nat} {data : Option (Nat × Nat)}
    {bs : List Nat} (hlen : bs.length = 8) :
    inputFn (.GetChunks T cur .ScanningForChunk data) bs
      = some (if (decodeHeader bs).chunk_id = fmtTag then
          afterChunk T cur (.ReadCurrentChunk (decodeHeader bs).chunk_size)
            data none
        else if (decodeHeader bs).chunk_id = dataTag then
          afterChunk T cur .ScanningForChunk
            (some (cur, (decodeHeader bs).chunk_size))
            (some (decodeHeader bs).chunk_size)
        else afterChunk T cur .ScanningForChunk data
          (some (decodeHeader bs).chunk_size)) := by
  simp [inputFn, hlen]

theorem fileBytesT_length {cs : List Chunk} (tail : List Nat)
    (htags : ∀ x ∈ cs, x.tag.length = 4) :
    (fileBytesT cs tail).length = 12 + regionSize cs + tail.length := by
  simp [fileBytesT, riffTag, waveTag, u32bytes, regionBytes_length htags]
  omega

theorem scan_junk (cs : List Chunk) (tail : List Nat)
    (htags : ∀ c ∈ cs, c.tag.length = 4 ∧ c.tag ≠ fmtTag ∧ c.tag ≠ dataTag)
    (ht1 : 1 ≤ tail.length) (ht8 : tail.length ≤ 8)
    (hW : 12 + regionSize cs + tail.length < W32) :
    ∀ todo done, cs = done ++ todo →
      Terminates (fileOf (fileBytesT cs tail))
        (.GetChunks (4 + regionSize cs + tail.length) (regionSize done)
          .ScanningForChunk none)
        (.error .IncompleteChunkHeader) := by
  intro todo
  induction todo with
  | nil =>
    intro done hcs
    have hdone : done = cs := by rw [hcs]; simp
    subst hdone
    have hcstags : ∀ x ∈ done, x.tag.length = 4 := fun x hx => (htags x hx).1
    have hlenL : (fileBytesT done tail).length
        = 12 + regionSize done + tail.length := fileBytesT_length tail hcstags
    have hwadd : wadd 12 (regionSize done) = 12 + regionSize done :=
      wadd_eq _ _ (by omega)
    have hdropL : (fileBytesT done tail).drop (12 + regionSize done) = tail := by
      have hT : fileBytesT done tail
          = (riffTag ++ u32bytes (4 + regionSize done + tail.length) ++ waveTag)
            ++ (regionBytes done ++ tail) := by
        rw [fileBytesT]
        simp [List.append_assoc]
      rw [hT]
      have h1 : (12 : Nat) + regionSize done
          = (riffTag ++ u32bytes (4 + regionSize done + tail.length)
              ++ waveTag).length + regionSize done := by
        simp [riffTag, waveTag, u32bytes]
      rw [h1, List.drop_append, List.drop_left' (regionBytes_length hcstags)]
    have hbs : readBytes (fileOf (fileBytesT done tail))
        (wadd 12 (regionSize done)) 8
        = tail ++ List.replicate (8 - tail.length) 0 := by
      rw [hwadd, readBytes_fileOf, hdropL, hlenL,
        List.take_of_length_le ht8]
      have : 8 - (12 + regionSize done + tail.length - (12 + regionSize done))
          = 8 - tail.length := by omega
      rw [this]
    have hlen8t : (tail ++ List.replicate (8 - tail.length) 0).length = 8 := by
      simp
      omega
    have hrem : wsub (wsub (4 + regionSize done + tail.length) 4)
        (regionSize done) = tail.length := by
      have h1 : wsub (4 + regionSize done + tail.length) 4
          = regionSize done + tail.length := by
        rw [wsub_eq _ _ (by omega) (by omega)]
        omega
      have h2 : wsub (regionSize done + tail.length) (regionSize done)
          = tail.length := by
        rw [wsub_eq _ _ (by omega) (by omega)]
        omega
      rw [h1, h2]
    by_cases hbf : (decodeHeader (tail ++ List.replicate (8 - tail.length) 0)).chunk_id = fmtTag
    · -- tail bytes decode as a format header: one more body read, then fail
      have hin1 : inputFn
          (.GetChunks (4 + regionSize done + tail.length) (regionSize done)
            .ScanningForChunk none)
          (readBytes (fileOf (fileBytesT done tail))
            (wadd 12 (regionSize done)) 8)
          = some (.GetChunks (4 + regionSize done + tail.length)
              (regionSize done)
              (.ReadCurrentChunk (decodeHeader
                (tail ++ List.replicate (8 - tail.length) 0)).chunk_size)
              none) := by
        rw [hbs, inputFn_scanning_raw hlen8t, if_pos hbf, afterChunk_none_rcc]
      have hin2 : inputFn
          (.GetChunks (4 + regionSize done + tail.length) (regionSize done)
            (.ReadCurrentChunk (decodeHeader
              (tail ++ List.replicate (8 - tail.length) 0)).chunk_size)
            none)
          (readBytes (fileOf (fileBytesT done tail)) 20 fmtDataSize)
          = some (.Done (.error .IncompleteChunkHeader)) := by
        have h40 : (readBytes (fileOf (fileBytesT done tail)) 20
            fmtDataSize).length = fmtDataSize := readBytes_length _ _ _
        simp only [inputFn, h40, if_true, eq_self_iff_true]
        rw [afterChunk_go_fmtdata, hrem, if_neg (by omega), if_neg (by omega)]
      exact run_step rfl hin1 (run_step rfl hin2 (terminates_done rfl))
    · by_cases hbd : (decodeHeader
          (tail ++ List.replicate (8 - tail.length) 0)).chunk_id = dataTag
      · have hin1 : inputFn
            (.GetChunks (4 + regionSize done + tail.length) (regionSize done)
              .ScanningForChunk none)
            (readBytes (fileOf (fileBytesT done tail))
              (wadd 12 (regionSize done)) 8)
            = some (.Done (.error .IncompleteChunkHeader)) := by
          rw [hbs, inputFn_scanning_raw hlen8t, if_neg hbf, if_pos hbd,
            afterChunk_go_scanning, hrem, if_neg (by omega), if_neg (by omega)]
        exact run_step rfl hin1 (terminates_done rfl)
      · have hin1 : inputFn
            (.GetChunks (4 + regionSize done + tail.length) (regionSize done)
              .ScanningForChunk none)
            (readBytes (fileOf (fileBytesT done tail))
              (wadd 12 (regionSize done)) 8)
            = some (.Done (.error .IncompleteChunkHeader)) := by
          rw [hbs, inputFn_scanning_raw hlen8t, if_neg hbf, if_neg hbd,
            afterChunk_go_scanning, hrem, if_neg (by omega), if_neg (by omega)]
        exact run_step rfl hin1 (terminates_done rfl)
  | cons c rest ih =>
    intro done hcs
    have hct : c.tag.length = 4 := (htags c (by rw [hcs]; simp)).1
    have hcf : c.tag ≠ fmtTag := (htags c (by rw [hcs]; simp)).2.1
    have hcd : c.tag ≠ dataTag := (htags c (by rw [hcs]; simp)).2.2
    have hdonetags : ∀ x ∈ done, x.tag.length = 4 := fun x hx =>
      (htags x (by rw [hcs]; simp [hx])).1
    have hsplit : regionSize cs
        = regionSize done + (chunkSpan c + regionSize rest) := by
      rw [hcs, regionSize_append, regionSize_cons]
    have hcsp : chunkSpan c = 8 + c.body.length := rfl
    have hspan8 : 8 ≤ chunkSpan c := chunkSpan_ge c
    have hbody : c.body.length < W32 := by omega
    have hfile : fileBytesT cs tail
        = (riffTag ++ u32bytes (4 + regionSize cs + tail.length) ++ waveTag)
          ++ (regionBytes done ++ (chunkBytes c ++ (regionBytes rest ++ tail))) := by
      rw [fileBytesT, hcs, regionBytes_append, regionBytes_cons]
      simp [List.append_assoc]
    have hread : readBytes (fileOf (fileBytesT cs tail))
        (wadd 12 (regionSize done)) 8 = c.tag ++ u32bytes c.body.length := by
      rw [hfile]
      exact region_read _ (by simp [riffTag, waveTag, u32bytes]) done hdonetags
        c hct _ (by omega)
    have hlen8 : (c.tag ++ u32bytes c.body.length).length = 8 := by
      simp [hct, u32bytes]
    have hrem : wsub (wsub (4 + regionSize cs + tail.length) 4)
        (regionSize done) = chunkSpan c + regionSize rest + tail.length := by
      have h1 : wsub (4 + regionSize cs + tail.length) 4
          = regionSize cs + tail.length := by
        rw [wsub_eq _ _ (by omega) (by omega)]
        omega
      have h2 : wsub (regionSize cs + tail.length) (regionSize done)
          = chunkSpan c + regionSize rest + tail.length := by
        rw [wsub_eq _ _ (by omega) (by omega)]
        omega
      rw [h1, h2]
    have hrs1 : regionSize (done ++ [c]) = regionSize done + chunkSpan c := by
      rw [regionSize_append, regionSize_cons]
      simp [regionSize]
    have hcur : wadd (regionSize done) (wadd 8 c.body.length)
        = regionSize (done ++ [c]) := by
      rw [wadd_eq 8 _ (by omega), wadd_eq _ _ (by omega), hrs1]
      omega
    have hcs2 : cs = (done ++ [c]) ++ rest := by rw [hcs]; simp
    have hin1 : inputFn
        (.GetChunks (4 + regionSize cs + tail.length) (regionSize done)
          .ScanningForChunk none)
        (readBytes (fileOf (fileBytesT cs tail)) (wadd 12 (regionSize done)) 8)
        = some (.GetChunks (4 + regionSize cs + tail.length)
            (regionSize (done ++ [c])) .ScanningForChunk none) := by
      rw [hread, inputFn_header .ScanningForChunk (Or.inl rfl) hlen8 hbody,
        if_neg hcf, if_neg hcd, afterChunk_go_scanning, hrem,
        if_neg (by omega), if_pos (by omega), hcur]
    exact run_step rfl hin1 (ih (done ++ [c]) hcs2)

/-- Claim C5 (amended): for every file of complete chunks that are neither
`"fmt "` nor `"data"` whose declared top-level size leaves 1 to 8 further
bytes after the last complete chunk, driving the protocol — reads answered
from the file, bytes past the file end answered as zero (the final header
read may overrun the declared end) — terminates in
`Done(Err(IncompleteChunkHeader))`. -/
theorem C5_amended (cs : List Chunk) (tail : List Nat)
    (h : WFJunk cs tail) :
    Terminates (fileOf (fileBytesT cs tail)) .ParseTopHeader
      (.error .IncompleteChunkHeader) := by
  obtain ⟨htags, ht1, ht8, hW⟩ := h
  have hT0 : 4 + regionSize cs + tail.length < W32 := by omega
  have hin0 : inputFn .ParseTopHeader
      (readBytes (fileOf (fileBytesT cs tail)) 0 12)
      = some (.GetChunks (4 + regionSize cs + tail.length) 0
          .ScanningForChunk none) :=
    top_input hT0 (regionBytes cs ++ tail)
  exact run_step rfl hin0 (scan_junk cs tail htags ht1 ht8 hW cs [] (by simp))

/-- Claim C2 (counterexample): a reachable `Scanning` state with
cursor 8 whose format sub-state is `AwaitingBody` (reached by skipping a
size-0 `"JUNK"` chunk and then reading the `"fmt "` header) issues the
format-descriptor read at address 20, not at `12 + cursor + 8 = 28`. -/
theorem C2_counterexample :
    inputFn .ParseTopHeader (riffTag ++ u32bytes 36 ++ waveTag)
      = some (.GetChunks 36 0 .ScanningForChunk none) ∧
    inputFn (.GetChunks 36 0 .ScanningForChunk none)
        ([74, 85, 78, 75] ++ u32bytes 0)
      = some (.GetChunks 36 8 .ScanningForChunk none) ∧
    inputFn (.GetChunks 36 8 .ScanningForChunk none) (fmtTag ++ u32bytes 16)
      = some (.GetChunks 36 8 (.ReadCurrentChunk 16) none) ∧
    output (.GetChunks 36 8 (.ReadCurrentChunk 16) none) = .Read 20 40 ∧
    (20 : Nat) ≠ 12 + 8 + 8 := by
  refine ⟨by decide, by decide, by decide, by decide, by decide⟩

/-- Claim C2 (amended): when the format sub-state is `AwaitingBody`,
`output` requests the format descriptor at the constant address
`12 + 8 = 20` for every cursor value (this equals `12 + cursor + 8` only
when the cursor is 0). -/
theorem C2_amended (T cur sz : Nat) (data : Option (Nat × Nat)) :
    output (.GetChunks T cur (.ReadCurrentChunk sz) data)
      = .Read 20 fmtDataSize := rfl

/-- Claim C3 (counterexample): for the valid 12-byte top header
`"RIFF" ‖ u32LE(0) ‖ "WAVE"` (declared size 0 < 4), the chunk walker's
subtraction `0 - 4 - 0` would underflow, yet `get_chunk_header_address`
returns `ok (some 12)` — the subtraction wrapped modulo `2^32` instead of
being rejected with an error — and the extractor likewise wraps and keeps
scanning instead of failing. -/
theorem C3_counterexample :
    parse_top_header (riffTag ++ u32bytes 0 ++ waveTag) = .ok ⟨0⟩ ∧
    (0 : Nat) < 4 ∧
    WaveFile.get_chunk_header_address ⟨0⟩ none = .ok (some 12) ∧
    inputFn (.GetChunks 0 0 .ScanningForChunk none) (dataTag ++ u32bytes 0)
      = some (.GetChunks 0 8 .ScanningForChunk (some (0, 0))) := by
  refine ⟨by decide, by decide, by decide, by decide⟩

/-- Claim C3 (amended): the `u32` subtractions wrap modulo `2^32` on
underflow rather than being rejected; no underflow occurs provided the
declared size is at least `4 + cursor`.  Under that condition the walker
follows the exact-arithmetic formula and the wrapped value
`remaining = T - 4 - cursor` agrees with plain subtraction. -/
theorem C3_amended :
    (∀ T, T < W32 → 4 ≤ T →
      WaveFile.get_chunk_header_address ⟨T⟩ none
        = (if T - 4 = 0 then .ok none
           else if 8 < T - 4 then .ok (some 12)
           else .error .IncompleteChunkHeader)) ∧
    (∀ T cur, T < W32 → cur < W32 → 4 + cur ≤ T →
      wsub (wsub T 4) cur = T - 4 - cur) := by
  constructor
  · intro T hT h4
    have h1 : wsub (wsub T 4) 0 = T - 4 := by
      rw [wsub_eq _ _ h4 hT, wsub_eq _ _ (by omega) (by omega)]
      omega
    simp only [WaveFile.get_chunk_header_address]
    rw [h1]
    have h12 : wadd 12 0 = 12 := by decide
    rw [h12]
  · intro T cur hT hc h4
    rw [wsub_eq _ _ (by omega) hT, wsub_eq _ _ (by omega) (by omega)]

/-- Witness for C3 (amended) at declared size 44 and cursor 0. -/
theorem C3_amended_witness :
    WaveFile.get_chunk_header_address ⟨44⟩ none
      = (if 44 - 4 = 0 then .ok none
         else if 8 < 44 - 4 then .ok (some 12)
         else .error .IncompleteChunkHeader) ∧
    wsub (wsub 44 4) 0 = 44 - 4 - 0 :=
  ⟨C3_amended.1 44 (by decide) (by decide),
   C3_amended.2 44 0 (by decide) (by decide) (by decide)⟩

/-- Claim C4 (counterexample): for the 12-byte file with declared
`total_size = 4` and no chunks, the read request issued right after the
top header is for 8 bytes at address 12 — it does not stay within the
12-byte file, so the protocol cannot be driven with every read answered
from within the file as the claim requires. -/
theorem C4_counterexample :
    inputFn .ParseTopHeader (fileBytes [])
      = some (.GetChunks 4 0 .ScanningForChunk none) ∧
    output (.GetChunks 4 0 .ScanningForChunk none) = .Read 12 8 ∧
    (fileBytes []).length = 12 ∧
    ¬ (12 + 8 ≤ (fileBytes []).length) := by
  refine ⟨by decide, by decide, by decide, by decide⟩

/-- Claim C4 (amended): for the 12-byte file with declared
`total_size = 4`, driving the protocol — the top-header read answered from
the file, the subsequent out-of-file 8-byte header read at address 12
answered with zero bytes — terminates in `Done(Err(MissingChunks))`. -/
theorem C4_amended :
    run (fileOf (fileBytes [])) 3 .ParseTopHeader
      = some (.error .MissingChunks) := by decide

/-- Claim C5 (counterexample): a file whose declared size leaves 1 byte
after the last complete chunk but whose chunks include both `"fmt "` and
`"data"` terminates in `Done(Ok ...)` — the machine finalizes at the data
chunk header and never reaches the truncated tail — refuting the claim
that every such file ends in `IncompleteChunkHeader`. -/
theorem C5_counterexample :
    run (fileOf (fileBytesT demoChunks [0])) 6 .ParseTopHeader
      = some (.ok ⟨decodeFmtData
          (readBytes (fileOf (fileBytesT demoChunks [0])) 20 40), 44, 8⟩) ∧
    ¬ Terminates (fileOf (fileBytesT demoChunks [0])) .ParseTopHeader
        (.error .IncompleteChunkHeader) := by
  constructor
  · decide
  · intro hterm
    obtain ⟨n, hn⟩ := hterm
    have hok : run (fileOf (fileBytesT demoChunks [0])) 6 .ParseTopHeader
        = some (.ok ⟨decodeFmtData
            (readBytes (fileOf (fileBytesT demoChunks [0])) 20 40), 44, 8⟩) := by
      decide
    exact Except.noConfusion (run_det hn hok)

/-- Claim C6 (counterexample): `MAX_READ_LEN` is 40, not 22, and the read
issued while the format body is pending has size 40, not 22 (the
`FmtData` record is 2+2+4+4+2+2+2+2+4+16 = 40 bytes). -/
theorem C6_counterexample :
    MAX_READ_LEN = 40 ∧ MAX_READ_LEN ≠ 22 ∧
    output (.GetChunks 44 0 (.ReadCurrentChunk 16) none) = .Read 20 40 ∧
    ¬ output (.GetChunks 44 0 (.ReadCurrentChunk 16) none) = .Read 20 22 := by
  refine ⟨by decide, by decide, by decide, by decide⟩

/-- Claim C6 (amended): the format descriptor is a fixed 40-byte record
and 40 bytes is the largest single read the extractor ever issues: the
`AwaitingBody` read has size `MAX_READ_LEN = 40` and every read request is
at most `MAX_READ_LEN`. -/
theorem C6_amended :
    MAX_READ_LEN = 40 ∧
    (∀ T cur sz : Nat, ∀ data : Option (Nat × Nat),
      output (.GetChunks T cur (.ReadCurrentChunk sz) data)
        = .Read 20 MAX_READ_LEN) ∧
    (∀ s a n, output s = .Read a n → n ≤ MAX_READ_LEN) := by
  refine ⟨rfl, fun T cur sz data => rfl, ?_⟩
  intro s a n h
  cases s with
  | ParseTopHeader =>
    injection h with h1 h2
    rw [← h2]
    decide
  | GetChunks T cur fmt data =>
    cases fmt with
    | ScanningForChunk =>
      injection h with h1 h2
      rw [← h2]
      decide
    | ReadCurrentChunk sz =>
      injection h with h1 h2
      rw [← h2]
      decide
    | ReadFmtData fd =>
      injection h with h1 h2
      rw [← h2]
      decide
  | Done r => exact GetMetaDataForI2sOutput.noConfusion h

/-- Witness for C6 (amended): the top-header read of 12 bytes is within
the `MAX_READ_LEN` bound. -/
theorem C6_amended_witness : (12 : Nat) ≤ MAX_READ_LEN :=
  C6_amended.2.2 .ParseTopHeader 0 12 rfl

/-- Claim C7: for every 12-byte buffer, `parse_top_header` fails with
`UnexpectedChunkId` carrying exactly the first 4 bytes when they are not
`"RIFF"`; fails with the unexpected-container-id error carrying exactly
bytes 8..12 when those are not `"WAVE"`; and otherwise succeeds, recording
the little-endian `u32` declared size read from bytes 4..8. -/
theorem C7_parse_top_header (bytes : List Nat) (_h12 : bytes.length = 12) :
    (¬ bytes.take 4 = riffTag →
      parse_top_header bytes = .error (.UnexpectedChunkId (bytes.take 4))) ∧
    (bytes.take 4 = riffTag → ¬ (bytes.drop 8).take 4 = waveTag →
      parse_top_header bytes
        = .error (.UnexpectedWaveId ((bytes.drop 8).take 4))) ∧
    (bytes.take 4 = riffTag → (bytes.drop 8).take 4 = waveTag →
      parse_top_header bytes = .ok ⟨u32le (bytes.drop 4)⟩) := by
  refine ⟨?_, ?_, ?_⟩
  · intro h
    simp [parse_top_header, decodeHeader, h]
  · intro h1 h2
    simp [parse_top_header, decodeHeader, h1, h2]
  · intro h1 h2
    simp [parse_top_header, decodeHeader, h1, h2]

/-- Witness for C7 at three concrete 12-byte buffers, one per branch. -/
theorem C7_witness :
    parse_top_header (riffTag ++ u32bytes 44 ++ waveTag)
      = .ok ⟨u32le ((riffTag ++ u32bytes 44 ++ waveTag).drop 4)⟩ ∧
    parse_top_header ([0, 0, 0, 0] ++ u32bytes 44 ++ waveTag)
      = .error (.UnexpectedChunkId
          (([0, 0, 0, 0] ++ u32bytes 44 ++ waveTag).take 4)) ∧
    parse_top_header (riffTag ++ u32bytes 44 ++ [0, 0, 0, 0])
      = .error (.UnexpectedWaveId
          (((riffTag ++ u32bytes 44 ++ [0, 0, 0, 0]).drop 8).take 4)) :=
  ⟨(C7_parse_top_header _ (by decide)).2.2 (by decide) (by decide),
   (C7_parse_top_header _ (by decide)).1 (by decide),
   (C7_parse_top_header _ (by decide)).2.1 (by decide) (by decide)⟩

/-- Claim C8: when the arithmetic does not underflow (in particular the
mathematical `next = c + 8 + s` satisfies `4 + next ≤ T`, so every `u32`
operation stays in range), `get_chunk_header_address` computes `next = 0`
with no previous chunk and `next = c + 8 + s` otherwise, and with
`remaining = T - 4 - next` returns `none` when `remaining = 0`,
`some (12 + next)` when `remaining > 8`, and fails with
`IncompleteChunkHeader` in every other case, including `remaining = 8`. -/
theorem C8_get_chunk_header_address :
    (∀ T, T < W32 → 4 ≤ T →
      WaveFile.get_chunk_header_address ⟨T⟩ none
        = (if T - 4 - 0 = 0 then .ok none
           else if 8 < T - 4 - 0 then .ok (some (12 + 0))
           else .error .IncompleteChunkHeader)) ∧
    (∀ T c s, T < W32 → 4 + (c + 8 + s) ≤ T →
      WaveFile.get_chunk_header_address ⟨T⟩ (some ⟨c, s⟩)
        = (if T - 4 - (c + 8 + s) = 0 then .ok none
           else if 8 < T - 4 - (c + 8 + s) then .ok (some (12 + (c + 8 + s)))
           else .error .IncompleteChunkHeader)) := by
  constructor
  · intro T hT h4
    have h1 : wsub (wsub T 4) 0 = T - 4 - 0 := by
      rw [wsub_eq _ _ h4 hT, wsub_eq _ _ (by omega) (by omega)]
    simp only [WaveFile.get_chunk_header_address]
    rw [h1]
    have h12 : wadd 12 0 = 12 + 0 := by decide
    rw [h12]
  · intro T c s hT h4
    have hnext : wadd (wadd c 8) s = c + 8 + s := by
      rw [wadd_eq c 8 (by omega), wadd_eq _ _ (by omega)]
    have h1 : wsub (wsub T 4) (c + 8 + s) = T - 4 - (c + 8 + s) := by
      rw [wsub_eq _ _ (by omega) hT, wsub_eq _ _ (by omega) (by omega)]
    simp only [WaveFile.get_chunk_header_address]
    rw [hnext, h1]
    split_ifs with h0 h8
    · rfl
    · rw [wadd_eq 12 _ (by omega)]
    · rfl

/-- Witness for C8 at declared size 44, with and without a previous
chunk. -/
theorem C8_witness :
    WaveFile.get_chunk_header_address ⟨44⟩ none
      = (if 44 - 4 - 0 = 0 then .ok none
         else if 8 < 44 - 4 - 0 then .ok (some (12 + 0))
         else .error .IncompleteChunkHeader) ∧
    WaveFile.get_chunk_header_address ⟨44⟩ (some ⟨0, 16⟩)
      = (if 44 - 4 - (0 + 8 + 16) = 0 then .ok none
         else if 8 < 44 - 4 - (0 + 8 + 16) then .ok (some (12 + (0 + 8 + 16)))
         else .error .IncompleteChunkHeader) :=
  ⟨C8_get_chunk_header_address.1 44 (by decide) (by decide),
   C8_get_chunk_header_address.2 44 0 16 (by decide) (by decide)⟩

/-- Claim C9: `output` takes the state by shared reference, so a call
returns its result and leaves the state unchanged — two consecutive calls
with no intervening `input` return identical results — and in every
`Done(result)` state `output` returns `Done` with that same result,
forever. -/
theorem C9_output_pure :
    (∀ s, outputCall ((outputCall s).2) = outputCall s) ∧
    (∀ r, output (.Done r) = .Done r) :=
  ⟨fun _ => rfl, fun _ => rfl⟩

/-- Claim C10: in every non-`Done` state (those whose `output` is a read
request), `input bytes` avoids the slice-conversion panic exactly when the
byte count equals the size of the request returned by `output` (12 while
parsing the top header, 8 while scanning, the format-descriptor size while
the format body is pending); and every `input` call in a `Done` state hits
the `unreachable!()` panic. -/
theorem C10_input_contract :
    (∀ s : GetMetaDataForI2sState, ∀ bs : List Nat, ∀ a n : Nat,
      output s = .Read a n → ((inputFn s bs).isSome ↔ bs.length = n)) ∧
    (∀ r bs, inputFn (.Done r) bs = none) := by
  constructor
  · intro s bs a n h
    cases s with
    | ParseTopHeader =>
      injection h with h1 h2
      subst h2
      by_cases hl : bs.length = 12 <;> simp [inputFn, hl]
    | GetChunks T cur fmt data =>
      cases fmt with
      | ScanningForChunk =>
        injection h with h1 h2
        subst h2
        by_cases hl : bs.length = 8 <;> simp [inputFn, hl]
      | ReadCurrentChunk sz =>
        injection h with h1 h2
        subst h2
        by_cases hl : bs.length = fmtDataSize <;> simp [inputFn, hl]
      | ReadFmtData fd =>
        injection h with h1 h2
        subst h2
        by_cases hl : bs.length = 8 <;> simp [inputFn, hl]
    | Done r => exact GetMetaDataForI2sOutput.noConfusion h
  · intro r bs
    rfl

/-- Witness for C10: a 12-byte input in the initial state is accepted. -/
theorem C10_witness :
    (inputFn .ParseTopHeader (List.replicate 12 0)).isSome ↔
      (List.replicate 12 0 : List Nat).length = 12 :=
  C10_input_contract.1 .ParseTopHeader (List.replicate 12 0) 0 12 rfl

/-- Witness for C1: the concrete 52-byte file
`"RIFF" ‖ u32LE(44) ‖ "WAVE" ‖ "fmt " ‖ u32LE(16) ‖ 16 bytes ‖ "data" ‖
u32LE(8) ‖ 8 bytes` yields `data_address = 44` and `data_size = 8`. -/
theorem C1_round_trip_witness :
    WF demoChunks ∧ 12 + dataChunkOffset demoChunks + 8 = 44 ∧
    dataChunkSize demoChunks = 8 ∧
    ∃ fd, Terminates (fileOf (fileBytes demoChunks)) .ParseTopHeader
      (.ok ⟨fd, 12 + dataChunkOffset demoChunks + 8, dataChunkSize demoChunks⟩) :=
  ⟨by decide, by decide, by decide, C1_round_trip demoChunks (by decide)⟩

/-- Witness for C5 (amended): one empty `"JUNK"` chunk followed by a
single declared trailing byte. -/
theorem C5_amended_witness :
    WFJunk [{ tag := [74, 85, 78, 75], body := [] }] [0] ∧
    Terminates (fileOf (fileBytesT [{ tag := [74, 85, 78, 75], body := [] }] [0]))
      .ParseTopHeader (.error .IncompleteChunkHeader) :=
  ⟨by decide, C5_amended _ _ (by decide)⟩

end PureWav
